import Mathlib

set_option maxRecDepth 8192

/-
Verification of the document chunking engine in src/chunker.py.

The Python source is shallowly embedded: every method of UniversalChunker
becomes a pure Lean function; the injected tokenizer becomes an explicit
argument of type String → Nat; machine integers are Nat with explicit
`% 2 ^ 32` where the MD5 digest needs 32-bit wraparound; the mutable merge
buffer becomes an explicit state value threaded through a fold.

Modelling conventions, stated once:
- Python whitespace predicates (`\s`, str.strip, str.split) are modelled
  over their ASCII behaviour (space, tab, CR, LF, FF, VT); the engine's
  inputs of interest are ASCII markdown.
- `hashlib.md5(...).hexdigest()` is embedded as a full MD5 implementation
  over byte lists (RFC 1321 constants and schedule), with bytes obtained by
  a direct UTF-8 encoder mirroring str.encode.
- `re.split(pattern, text)` for the fixed sentence pattern of
  _split_sentences is embedded as a character scan: the pattern matches a
  single whitespace character whose lookbehind context is checked against
  the three lookbehind groups of the source regex.
- The `while` loops of _split_long_paragraph are embedded with an explicit
  iteration budget (`fuel`); the top-level entry supplies the budget
  `sentences.length`, and the termination theorem for claim C5 proves the
  result is independent of the budget from `sentences.length - i` upward,
  which is exactly the statement that the source loop terminates.
-/

/-! ### Policy constants (chunker.py lines 6-10) -/

def MIN_TOKENS : Nat := 80

def TARGET_TOKENS : Nat := 220

def MAX_TOKENS : Nat := 300

def SENTENCE_OVERLAP : Nat := 1

/-! ### Python string primitives used by the source -/

/-- Python regex `\s` / str.strip whitespace set (ASCII part). -/
def pyIsSpace (c : Char) : Bool :=
  c == ' ' || c == '\t' || c == '\n' || c == '\r' || c == '\x0b' || c == '\x0c'

/-- Python regex `\w` (ASCII part): letters, digits, underscore. -/
def pyIsWordChar (c : Char) : Bool :=
  c.isAlphanum || c == '_'

/-- Python str.strip: drop leading and trailing whitespace. -/
def pyStrip (s : String) : String :=
  String.mk (((s.toList.dropWhile pyIsSpace).reverse.dropWhile pyIsSpace).reverse)

/-- Python str.split with separator newline (text.split of chunker.py
line 77): exact splitting on the newline character, keeping empty
pieces. -/
def splitLinesGo : List Char → List Char → List String
  | [], cur => [String.mk cur]
  | c :: rest, cur =>
    if c == '\n' then String.mk cur :: splitLinesGo rest []
    else splitLinesGo rest (cur ++ [c])

def pySplitLines (s : String) : List String :=
  splitLinesGo s.toList []

/-- Helper for Python str.split with no separator: count maximal
non-whitespace runs. The Bool argument records being inside a run. -/
def wordCountGo : Bool → List Char → Nat
  | _, [] => 0
  | inWord, c :: cs =>
    if pyIsSpace c then wordCountGo false cs
    else (if inWord then 0 else 1) + wordCountGo true cs

/-! ### MD5 (embedding of hashlib.md5(...).hexdigest(), RFC 1321) -/

/-- UTF-8 encoding of one character (models str.encode of utf-8). -/
def utf8Char (c : Char) : List Nat :=
  let n := c.toNat
  if n < 0x80 then [n]
  else if n < 0x800 then [0xC0 + n / 64, 0x80 + n % 64]
  else if n < 0x10000 then [0xE0 + n / 4096, 0x80 + n / 64 % 64, 0x80 + n % 64]
  else [0xF0 + n / 262144, 0x80 + n / 4096 % 64, 0x80 + n / 64 % 64, 0x80 + n % 64]

/-- UTF-8 encoding of a string as a byte list. -/
def utf8Encode (s : String) : List Nat :=
  (s.toList.map utf8Char).flatten

/-- MD5 round constants. -/
def MD5_K : List Nat :=
  [0xd76aa478, 0xe8c7b756, 0x242070db, 0xc1bdceee,
   0xf57c0faf, 0x4787c62a, 0xa8304613, 0xfd469501,
   0x698098d8, 0x8b44f7af, 0xffff5bb1, 0x895cd7be,
   0x6b901122, 0xfd987193, 0xa679438e, 0x49b40821,
   0xf61e2562, 0xc040b340, 0x265e5a51, 0xe9b6c7aa,
   0xd62f105d, 0x02441453, 0xd8a1e681, 0xe7d3fbc8,
   0x21e1cde6, 0xc33707d6, 0xf4d50d87, 0x455a14ed,
   0xa9e3e905, 0xfcefa3f8, 0x676f02d9, 0x8d2a4c8a,
   0xfffa3942, 0x8771f681, 0x6d9d6122, 0xfde5380c,
   0xa4beea44, 0x4bdecfa9, 0xf6bb4b60, 0xbebfbc70,
   0x289b7ec6, 0xeaa127fa, 0xd4ef3085, 0x04881d05,
   0xd9d4d039, 0xe6db99e5, 0x1fa27cf8, 0xc4ac5665,
   0xf4292244, 0x432aff97, 0xab9423a7, 0xfc93a039,
   0x655b59c3, 0x8f0ccc92, 0xffeff47d, 0x85845dd1,
   0x6fa87e4f, 0xfe2ce6e0, 0xa3014314, 0x4e0811a1,
   0xf7537e82, 0xbd3af235, 0x2ad7d2bb, 0xeb86d391]

/-- MD5 per-round left-rotation amounts. -/
def MD5_S : List Nat :=
  [7, 12, 17, 22, 7, 12, 17, 22, 7, 12, 17, 22, 7, 12, 17, 22,
   5, 9, 14, 20, 5, 9, 14, 20, 5, 9, 14, 20, 5, 9, 14, 20,
   4, 11, 16, 23, 4, 11, 16, 23, 4, 11, 16, 23, 4, 11, 16, 23,
   6, 10, 15, 21, 6, 10, 15, 21, 6, 10, 15, 21, 6, 10, 15, 21]

/-- 32-bit left rotation on Nat. -/
def rotl32 (w s : Nat) : Nat :=
  ((w <<< s) ||| (w >>> (32 - s))) % 4294967296

def md5F (b c d : Nat) : Nat := (b &&& c) ||| ((b ^^^ 0xffffffff) &&& d)

def md5G (b c d : Nat) : Nat := (d &&& b) ||| ((d ^^^ 0xffffffff) &&& c)

def md5H (b c d : Nat) : Nat := b ^^^ c ^^^ d

def md5I (b c d : Nat) : Nat := c ^^^ (b ||| (d ^^^ 0xffffffff))

structure MD5State where
  a : Nat
  b : Nat
  c : Nat
  d : Nat

/-- Little-endian 32-bit words of a 64-byte block. -/
def md5Words (block : List Nat) : List Nat :=
  (List.range 16).map (fun g =>
    block.getD (4 * g) 0 + 256 * block.getD (4 * g + 1) 0
      + 65536 * block.getD (4 * g + 2) 0 + 16777216 * block.getD (4 * g + 3) 0)

/-- One of the 64 MD5 steps. -/
def md5Step (M : List Nat) (st : MD5State) (i : Nat) : MD5State :=
  let fg : Nat × Nat :=
    if i < 16 then (md5F st.b st.c st.d, i)
    else if i < 32 then (md5G st.b st.c st.d, (5 * i + 1) % 16)
    else if i < 48 then (md5H st.b st.c st.d, (3 * i + 5) % 16)
    else (md5I st.b st.c st.d, (7 * i) % 16)
  let newB := (st.b + rotl32 ((st.a + fg.1 + MD5_K.getD i 0 + M.getD fg.2 0) % 4294967296)
                (MD5_S.getD i 0)) % 4294967296
  ⟨st.d, newB, st.b, st.c⟩

/-- Process one 64-byte block. -/
def md5ProcessBlock (st : MD5State) (block : List Nat) : MD5State :=
  let M := md5Words block
  let r := (List.range 64).foldl (md5Step M) st
  ⟨(st.a + r.a) % 4294967296, (st.b + r.b) % 4294967296,
   (st.c + r.c) % 4294967296, (st.d + r.d) % 4294967296⟩

/-- Consume the padded byte stream 64 bytes at a time. -/
def md5Go (st : MD5State) (acc : List Nat) : List Nat → MD5State
  | [] => st
  | b :: rest =>
    let acc' := acc ++ [b]
    if acc'.length = 64 then md5Go (md5ProcessBlock st acc') [] rest
    else md5Go st acc' rest

/-- Little-endian 8-byte rendering of the bit length. -/
def le64 (n : Nat) : List Nat :=
  [n % 256, n / 256 % 256, n / 65536 % 256, n / 16777216 % 256,
   n / 4294967296 % 256, n / 1099511627776 % 256,
   n / 281474976710656 % 256, n / 72057594037927936 % 256]

/-- MD5 padding: 0x80, zeros up to 56 mod 64, then the 64-bit bit length. -/
def md5Pad (msg : List Nat) : List Nat :=
  let zeros := (119 - msg.length % 64) % 64
  msg ++ [0x80] ++ List.replicate zeros 0 ++ le64 (8 * msg.length)

/-- Little-endian 4-byte rendering of a 32-bit word. -/
def le4 (w : Nat) : List Nat :=
  [w % 256, w / 256 % 256, w / 65536 % 256, w / 16777216 % 256]

/-- The 16-byte MD5 digest of a byte list. -/
def md5Digest (msg : List Nat) : List Nat :=
  let st := md5Go ⟨0x67452301, 0xefcdab89, 0x98badcfe, 0x10325476⟩ [] (md5Pad msg)
  le4 st.a ++ le4 st.b ++ le4 st.c ++ le4 st.d

/-- Lowercase hexadecimal digit. -/
def hexDigit (n : Nat) : Char :=
  "0123456789abcdef".toList.getD (n % 16) '0'

/-- Two lowercase hex characters of one byte. -/
def byteHex (b : Nat) : List Char :=
  [hexDigit (b / 16 % 16), hexDigit (b % 16)]

/-- Lowercase hex characters of the MD5 digest (hashlib hexdigest). -/
def md5HexChars (msg : List Nat) : List Char :=
  ((md5Digest msg).map byteHex).flatten

/-! ### Data model (chunker.py lines 12-29) -/

/-- Section node of the parsed markdown outline (chunker.py lines 12-18).
`subsections` makes the type a nested inductive, so it is declared with
`inductive` and explicit accessors rather than `structure`. -/
inductive Section where
  | mk (title : String) (level : Nat) (path : List String)
       (content : List String) (subsections : List Section)

def Section.title : Section → String
  | .mk t _ _ _ _ => t

def Section.level : Section → Nat
  | .mk _ l _ _ _ => l

def Section.path : Section → List String
  | .mk _ _ p _ _ => p

def Section.content : Section → List String
  | .mk _ _ _ c _ => c

def Section.subsections : Section → List Section
  | .mk _ _ _ _ s => s

/-- Output record (chunker.py lines 20-29). -/
structure Chunk where
  chunk_id : String
  article_id : String
  text : String
  token_count : Nat
  chunk_type : String
  section_path : List String
  paragraph_index : Nat
  subchunk_index : Option Nat
  deriving DecidableEq, Repr

/-! ### Tokenizer default and sentence splitter (chunker.py lines 39-50) -/

/-- Default tokenizer: len(text.split()) (chunker.py lines 39-40). -/
def _simple_tokenize (text : String) : Nat :=
  wordCountGo false text.toList

/-- Is one of the sentence-final characters of the source regex. -/
def isSentEnd (c : Char) : Bool :=
  c == '.' || c == '?' || c == '!'

/-- The split pattern of _split_sentences matches one whitespace character;
`prev` lists the characters before it, most recent first. The three
conjuncts are the positive lookbehind on `.?!` and the two negative
lookbehinds of the source regex (chunker.py line 48). -/
def splitBoundary (prev : List Char) (c : Char) : Bool :=
  pyIsSpace c &&
  (match prev with
   | p1 :: _ => isSentEnd p1
   | [] => false) &&
  !(match prev with
    | p1 :: p2 :: p3 :: p4 :: _ => pyIsWordChar p4 && p3 == '.' && pyIsWordChar p2 && p1 != '\n'
    | _ => false) &&
  !(match prev with
    | p1 :: p2 :: p3 :: _ => p3.isUpper && p2.isLower && p1 == '.'
    | _ => false)

/-- Character scan of re.split for the fixed pattern: each matched
whitespace character is consumed and closes the current fragment. -/
def splitSentGo (prev : List Char) (cur : List Char) (acc : List (List Char)) :
    List Char → List (List Char)
  | [] => acc ++ [cur]
  | c :: rest =>
    if splitBoundary prev c then splitSentGo (c :: prev) [] (acc ++ [cur]) rest
    else splitSentGo (c :: prev) (cur ++ [c]) acc rest

/-- Sentence splitter (chunker.py lines 42-50): split, strip each
fragment, drop empties. -/
def _split_sentences (text : String) : List String :=
  let sentences := splitSentGo [] [] [] text.toList
  (sentences.map (fun f => pyStrip (String.mk f))).filter (fun s => s != "")

/-! ### Chunk identity and emission (chunker.py lines 263-281) -/

/-- The canonical delimited identity string of _emit_chunk (line 269):
article id, section path joined by "/", paragraph index, and the sub-chunk
index rendered by str, or the empty string when absent. -/
def raw_id (article_id : String) (section_path : List String) (p_idx : Nat)
    (sub_idx : Option Nat) : String :=
  let sub_str := match sub_idx with
    | some k => toString k
    | none => ""
  let path_str := String.intercalate "/" section_path
  article_id ++ "|" ++ path_str ++ "|" ++ toString p_idx ++ "|" ++ sub_str

/-- chunk_id of _emit_chunk (line 270): first 16 hex characters of the MD5
hexdigest of the UTF-8 encoded identity string. -/
def chunk_id_of (article_id : String) (section_path : List String) (p_idx : Nat)
    (sub_idx : Option Nat) : String :=
  String.mk ((md5HexChars (utf8Encode (raw_id article_id section_path p_idx sub_idx))).take 16)

/-- _emit_chunk (chunker.py lines 263-281) builds the Chunk record; the
source appends it to a list, which call sites here do explicitly. -/
def _emit_chunk (article_id : String) (section_path : List String) (text : String)
    (tokens : Nat) (c_type : String) (p_idx : Nat) (sub_idx : Option Nat) : Chunk :=
  { chunk_id := chunk_id_of article_id section_path p_idx sub_idx
    article_id := article_id
    text := text
    token_count := tokens
    chunk_type := c_type
    section_path := section_path
    paragraph_index := p_idx
    subchunk_index := sub_idx }

/-! ### Sentence-window split (chunker.py lines 207-261) -/

/-- Inner window-building loop of _split_long_paragraph (lines 223-238):
append sentences and their token counts until the sum reaches
TARGET_TOKENS or the sentences run out. Returns the window, the token sum,
and the number of sentences consumed. -/
def buildWindow (tok : String → Nat) : List String → List String → Nat →
    List String × Nat × Nat
  | [], window, token_sum => (window, token_sum, 0)
  | s :: rest, window, token_sum =>
    let token_sum' := token_sum + tok s
    let window' := window ++ [s]
    if TARGET_TOKENS ≤ token_sum' then (window', token_sum', 1)
    else
      let r := buildWindow tok rest window' token_sum'
      (r.1, r.2.1, r.2.2 + 1)

/-- Overlap clamp of lines 254-257: if the overlap reaches the window size
it becomes max(0, window size - 1); Nat subtraction gives the max with 0. -/
def clampOverlap (overlap_count w : Nat) : Nat :=
  if w ≤ overlap_count then w - 1 else overlap_count

/-- One iteration of the outer while loop of _split_long_paragraph
(lines 218-261): build the window from the cursor, emit its chunk, and
compute the next cursor, moved back by the clamped overlap only when
sentences remain after the window (line 260). Returns the emitted chunk
and the next cursor. -/
def splitStep (tok : String → Nat) (article_id : String) (path : List String)
    (paragraph_index : Nat) (sentences : List String) (overlap i sub_idx : Nat) :
    Chunk × Nat :=
  let bw := buildWindow tok (sentences.drop i) [] 0
  let window := bw.1
  let token_sum := bw.2.1
  let chunk_text := String.intercalate " " window
  let c := _emit_chunk article_id path chunk_text token_sum "split" paragraph_index (some sub_idx)
  let i1 := i + bw.2.2
  let i2 := if i1 < sentences.length then i1 - clampOverlap overlap window.length else i1
  (c, i2)

/-- Outer while loop of _split_long_paragraph (lines 217-261), with an
explicit iteration budget `fuel`. Arguments after `overlap` are
fuel, the cursor i, and sub_idx. -/
def splitLoop (tok : String → Nat) (article_id : String) (path : List String)
    (paragraph_index : Nat) (sentences : List String) (overlap : Nat) :
    Nat → Nat → Nat → List Chunk
  | 0, _, _ => []
  | fuel + 1, i, sub_idx =>
    if i < sentences.length then
      (splitStep tok article_id path paragraph_index sentences overlap i sub_idx).1 ::
        splitLoop tok article_id path paragraph_index sentences overlap fuel
          (splitStep tok article_id path paragraph_index sentences overlap i sub_idx).2
          (sub_idx + 1)
    else []

/-- _split_long_paragraph (chunker.py lines 207-261). The iteration budget
sentences.length is sufficient: the termination theorem for C5 shows the
result is the same for every budget at least sentences.length. -/
def _split_long_paragraph (tok : String → Nat) (article_id : String) (path : List String)
    (text : String) (paragraph_index : Nat) : List Chunk :=
  let sentences := _split_sentences text
  if sentences.isEmpty then []
  else splitLoop tok article_id path paragraph_index sentences SENTENCE_OVERLAP
    sentences.length 0 0

/-! ### Section content processing (chunker.py lines 138-205) -/

/-- Loop state of _process_section_content: emitted chunks so far and the
merge buffer. The source's buffer_text = None with buffer_idx = -1 is the
`none` case; otherwise the pair (buffer_text, buffer_idx). -/
structure PState where
  chunks : List Chunk
  buffer : Option (String × Nat)

/-- Body of the paragraph loop of _process_section_content
(chunker.py lines 149-198) for one enumerated paragraph (i, text). -/
def processPara (tok : String → Nat) (article_id : String) (path : List String)
    (st : PState) (ip : Nat × String) : PState :=
  let i := ip.1
  let paragraph_text := ip.2
  let tokens := tok paragraph_text
  if tokens < MIN_TOKENS then
    match st.buffer with
    | none => { chunks := st.chunks, buffer := some (paragraph_text, i) }
    | some (buffer_text, buffer_idx) =>
      let merged_candidate := buffer_text ++ "\n\n" ++ paragraph_text
      let merged_tokens := tok merged_candidate
      if merged_tokens ≤ MAX_TOKENS then
        { chunks := st.chunks, buffer := some (merged_candidate, buffer_idx) }
      else
        { chunks := st.chunks ++
            [_emit_chunk article_id path buffer_text (tok buffer_text) "merged" buffer_idx none]
          buffer := some (paragraph_text, i) }
  else
    let chunks1 :=
      match st.buffer with
      | none => st.chunks
      | some (buffer_text, buffer_idx) =>
        st.chunks ++
          [_emit_chunk article_id path buffer_text (tok buffer_text) "merged" buffer_idx none]
    if tokens ≤ MAX_TOKENS then
      { chunks := chunks1 ++ [_emit_chunk article_id path paragraph_text tokens "paragraph" i none]
        buffer := none }
    else
      { chunks := chunks1 ++ _split_long_paragraph tok article_id path paragraph_text i
        buffer := none }

/-- Python enumerate starting at n. -/
def enumFromIdx (n : Nat) : List String → List (Nat × String)
  | [] => []
  | p :: ps => (n, p) :: enumFromIdx (n + 1) ps

/-- _process_section_content (chunker.py lines 138-205): fold the
paragraph loop over the enumerated content, then the final buffer flush of
lines 200-203. -/
def _process_section_content (tok : String → Nat) (article_id : String) (sec : Section) :
    List Chunk :=
  let st := (enumFromIdx 0 sec.content).foldl (processPara tok article_id sec.path) ⟨[], none⟩
  match st.buffer with
  | none => st.chunks
  | some (buffer_text, buffer_idx) =>
    st.chunks ++
      [_emit_chunk article_id sec.path buffer_text (tok buffer_text) "merged" buffer_idx none]

/-! ### Markdown structure parser (chunker.py lines 73-136)

The source mutates Section objects held in a stack; here each open section
is a Frame, a child Frame is attached to its parent when it is closed
(popped), and `current_section` is the invariant stack top (the source only
ever appends content to the top of its stack). -/

/-- An open section under construction. -/
structure Frame where
  title : String
  level : Nat
  path : List String
  content : List String
  subs : List Section

/-- Closing a frame yields its Section value. -/
def closeFrame (f : Frame) : Section :=
  .mk f.title f.level f.path f.content f.subs

/-- Parser state: the stack top `cur`, the frames below it (innermost
first; the root is last), and the pending paragraph lines. -/
structure ParseState where
  cur : Frame
  stack : List Frame
  para : List String

/-- The paragraph text a flush appends (chunker.py lines 86-92): join the
accumulated lines with single spaces, strip, drop if empty. -/
def flushOne (para : List String) : List String :=
  match para with
  | [] => []
  | _ :: _ =>
    let p_text := pyStrip (String.intercalate " " para)
    if p_text = "" then [] else [p_text]

/-- flush_paragraph (chunker.py lines 86-92). -/
def flushPara (st : ParseState) : ParseState :=
  { cur := { st.cur with content := st.cur.content ++ flushOne st.para }
    stack := st.stack
    para := [] }

/-- re.match of the ATX header pattern (chunker.py line 102) on a stripped
line: one or more '#', at least one whitespace, then the stripped title. -/
def headerMatch (line_stripped : String) : Option (Nat × String) :=
  let cs := line_stripped.toList
  let hashes := cs.takeWhile (fun c => c == '#')
  let rest := cs.dropWhile (fun c => c == '#')
  match hashes, rest with
  | _ :: _, c :: _ =>
    if pyIsSpace c then some (hashes.length, pyStrip (String.mk rest)) else none
  | _, _ => none

/-- Stack popping of chunker.py lines 110-111: pop while the stack has
more than the root and its top's level is at least the new level; a popped
frame is attached as the last child of the frame below it. -/
def popTo (level : Nat) : Frame → List Frame → Frame × List Frame
  | cur, [] => (cur, [])
  | cur, parent :: rest =>
    if level ≤ cur.level then
      popTo level { parent with subs := parent.subs ++ [closeFrame cur] } rest
    else (cur, parent :: rest)

/-- One line of the parsing loop (chunker.py lines 94-133). -/
def parseLine (st : ParseState) (line : String) : ParseState :=
  let line_stripped := pyStrip line
  if line_stripped = "" then flushPara st
  else
    match headerMatch line_stripped with
    | some lt =>
      let st1 := flushPara st
      let popped := popTo lt.1 st1.cur st1.stack
      let parent := popped.1
      let base_path := if parent.path = ["Root"] then [] else parent.path
      let path := base_path ++ [lt.2]
      { cur := { title := lt.2, level := lt.1, path := path, content := [], subs := [] }
        stack := parent :: popped.2
        para := [] }
    | none => { st with para := st.para ++ [line_stripped] }

/-- Close all remaining frames into the root Section. -/
def collapseStack : Frame → List Frame → Section
  | cur, [] => closeFrame cur
  | cur, parent :: rest => collapseStack { parent with subs := parent.subs ++ [closeFrame cur] } rest

/-- _parse_markdown_structure (chunker.py lines 73-136). -/
def _parse_markdown_structure (text : String) : Section :=
  let init : ParseState :=
    { cur := { title := "Root", level := 0, path := ["Root"], content := [], subs := [] }
      stack := []
      para := [] }
  let st := (pySplitLines text).foldl parseLine init
  let st' := flushPara st
  collapseStack st'.cur st'.stack

/-! ### Orchestration (chunker.py lines 52-71) -/

mutual

/-- _recursive_chunk_process (chunker.py lines 62-71): this section's
chunks, then the subsections' in order. -/
def _recursive_chunk_process (tok : String → Nat) (article_id : String) :
    Section → List Chunk
  | .mk t l p c subs =>
    _process_section_content tok article_id (.mk t l p c subs) ++
      recurseSubsections tok article_id subs

/-- The subsection loop of _recursive_chunk_process. -/
def recurseSubsections (tok : String → Nat) (article_id : String) :
    List Section → List Chunk
  | [] => []
  | s :: rest =>
    _recursive_chunk_process tok article_id s ++ recurseSubsections tok article_id rest

end

/-- chunk_article (chunker.py lines 52-60). -/
def chunk_article (tok : String → Nat) (article_id : String) (markdown_content : String) :
    List Chunk :=
  _recursive_chunk_process tok article_id (_parse_markdown_structure markdown_content)

/-! ### Constructor (chunker.py lines 31-37)

The source __init__ stores the injected tokenizer (or the default) and
reads none of the policy constants. The spec treats the four policy
constants as configuration, so they appear here as arguments in order to
quantify over configurations; the body, faithful to the source, ignores
them and cannot fail, hence the Except result is always ok. The overlap
argument is Int because the spec contemplates negative overlaps. -/

def UniversalChunker_init (min_tokens target_tokens max_tokens : Nat)
    (sentence_overlap : Int) (tokenizer_func : Option (String → Nat)) :
    Except String (String → Nat) :=
  Except.ok (tokenizer_func.getD _simple_tokenize)

/-- The configuration validity predicate of the spec (sections 6 and 7). -/
def validConfig (min_tokens target_tokens max_tokens : Nat) (sentence_overlap : Int) : Prop :=
  min_tokens < target_tokens ∧ target_tokens ≤ max_tokens ∧ 0 ≤ sentence_overlap

/-! ### Name binding of the class body (chunker.py lines 31-284)

Python evaluates a class body top to bottom in its own namespace; a name
used there resolves against the class namespace built so far, then the
module globals, then builtins. These lists transcribe, in source order,
the names bound by chunker.py before line 284 executes. -/

/-- Names bound in the module namespace before the class body runs
(imports, constants, the two dataclasses). -/
def chunker_module_bindings : List String :=
  ["hashlib", "re", "dataclass", "field", "List", "Optional", "Dict",
   "MIN_TOKENS", "TARGET_TOKENS", "MAX_TOKENS", "SENTENCE_OVERLAP",
   "Section", "Chunk"]

/-- Names bound in the UniversalChunker class namespace by the time
line 284 executes (the def statements of lines 32-281). -/
def universal_chunker_class_bindings : List String :=
  ["__init__", "_simple_tokenize", "_split_sentences", "chunk_article",
   "_recursive_chunk_process", "_parse_markdown_structure",
   "_process_section_content", "_split_long_paragraph", "_emit_chunk"]

/-- Python builtins referenced anywhere in chunker.py (any complete
builtins list would do: the looked-up name is no builtin). -/
def python_builtin_bindings : List String :=
  ["len", "str", "max", "min", "enumerate", "range", "print", "isinstance",
   "int", "float", "bool", "list", "dict", "set", "tuple", "type", "object",
   "sorted", "sum", "abs", "map", "filter", "zip", "repr", "hash", "id",
   "getattr", "setattr", "hasattr", "super", "property", "staticmethod",
   "classmethod", "Exception", "ValueError", "TypeError", "KeyError",
   "IndexError", "AttributeError", "NameError", "RuntimeError", "open",
   "input", "format", "iter", "next", "reversed", "round", "divmod", "pow",
   "all", "any", "chr", "ord", "bytes", "bytearray", "frozenset", "slice",
   "vars", "dir", "callable", "None", "True", "False"]

/-- Name resolution for an expression at line 284 of the class body. -/
def classBodyResolves (n : String) : Bool :=
  (universal_chunker_class_bindings ++ chunker_module_bindings ++
    python_builtin_bindings).contains n

/-- Result of evaluating a Python statement. -/
inductive PyEvalResult where
  | ok
  | nameError (n : String)
  deriving DecidableEq

/-- Evaluating line 284, `_process_section_content = _process_section_content_fixed`:
the right-hand side name is looked up; an unresolvable name raises
NameError, aborting the class definition. -/
def evalClassWiring : PyEvalResult :=
  if classBodyResolves "_process_section_content_fixed" then PyEvalResult.ok
  else PyEvalResult.nameError "_process_section_content_fixed"

/-! ### Spec-side paragraph extraction (spec section 4.1)

Used to state what "all the document's paragraphs" means in claim C7
independently of the parser: blank lines delimit paragraphs, a paragraph
is its accumulated stripped lines joined by single spaces and stripped,
empty accumulations produce nothing. -/

/-- Fold the paragraph-accumulation discipline of spec 4.1 over lines,
starting from pending buffer `buf`; returns the paragraphs emitted and the
final pending buffer. -/
def paragraphsAux (buf : List String) : List String → List String × List String
  | [] => ([], buf)
  | l :: ls =>
    let t := pyStrip l
    if t = "" then
      let r := paragraphsAux [] ls
      (flushOne buf ++ r.1, r.2)
    else
      paragraphsAux (buf ++ [t]) ls

/-- All paragraphs of a document per spec 4.1. -/
def paragraphsOf (text : String) : List String :=
  let r := paragraphsAux [] (pySplitLines text)
  r.1 ++ flushOne r.2

/-! ### Concrete inputs used by witnesses and counterexamples -/

/-- A placeholder chunk used as the default of List.getD. -/
def defaultChunk : Chunk :=
  _emit_chunk "" [] "" 0 "" 0 none

/-- A character-count tokenizer: a legitimate instance of the injected
tokenizer capability (text to nonnegative integer). -/
def charTok (s : String) : Nat :=
  s.length

/-- 200 letters a and a period: one 201-character sentence. -/
def aSent : String :=
  String.mk (List.replicate 200 'a' ++ ['.'])

/-- 150 letters b and a period: one 151-character sentence. -/
def bSent : String :=
  String.mk (List.replicate 150 'b' ++ ['.'])

/-- A 353-character paragraph of the two sentences; under charTok its
count 353 exceeds MAX_TOKENS, so it is split. -/
def longPara : String :=
  aSent ++ " " ++ bSent

/-- A section holding only the long paragraph. -/
def secC9 : Section :=
  Section.mk "Root" 0 ["Root"] [longPara] []

/-- A section with two undersized paragraphs, which merge. -/
def secTwoSmall : Section :=
  Section.mk "Root" 0 ["Root"] ["a b", "c"] []

/-- An 80-word paragraph: exactly MIN_TOKENS under the default tokenizer. -/
def p80 : String :=
  String.intercalate " " (List.replicate 80 "w")

/-- A 79-word paragraph: one token below MIN_TOKENS. -/
def p79 : String :=
  String.intercalate " " (List.replicate 79 "w")

/-- A 290-word buffer text, so merging p79 into it exceeds MAX_TOKENS. -/
def b290 : String :=
  String.intercalate " " (List.replicate 290 "v")

/-- The sixteen lowercase hex characters. -/
def hexAlphabet : List Char :=
  "0123456789abcdef".toList

/-- The token-count field contract that the code actually maintains:
paragraph and merged chunks carry the tokenizer count of their text;
split chunks carry the sum of the per-sentence counts of some nonempty
sentence window whose space-join is their text. -/
def tokenCountSpec (tok : String → Nat) (c : Chunk) : Prop :=
  ((c.chunk_type = "paragraph" ∨ c.chunk_type = "merged") → c.token_count = tok c.text) ∧
  (c.chunk_type = "split" →
    ∃ w : List String, w ≠ [] ∧ c.text = String.intercalate " " w ∧
      c.token_count = (w.map tok).sum)

/-! ### Helper lemmas: window building and the split loop -/

/-- Starting from window w0 and sum s0, the inner loop appends a nonempty
(when any sentence remains) block of sentences delta, adds their token
counts, and reports the number consumed. -/
theorem buildWindow_spec (tok : String → Nat) :
    ∀ (rest w0 : List String) (s0 : Nat), ∃ delta : List String,
      buildWindow tok rest w0 s0 = (w0 ++ delta, s0 + (delta.map tok).sum, delta.length) ∧
      delta.length ≤ rest.length ∧ (rest ≠ [] → 1 ≤ delta.length) := by
  intro rest
  induction rest with
  | nil =>
    intro w0 s0
    exact ⟨[], by simp [buildWindow], by simp, by simp⟩
  | cons s rest ih =>
    intro w0 s0
    by_cases h : TARGET_TOKENS ≤ s0 + tok s
    · refine ⟨[s], ?_, by simp, fun _ => le_refl 1⟩
      simp [buildWindow, h]
    · obtain ⟨d, hd, hlen, _⟩ := ih (w0 ++ [s]) (s0 + tok s)
      refine ⟨s :: d, ?_, by simpa using Nat.succ_le_succ hlen, fun _ => Nat.succ_le_succ (Nat.zero_le _)⟩
      simp only [buildWindow, if_neg h, hd]
      simp [List.append_assoc, Nat.add_assoc]

/-- When the cursor is inside the sentence list, one split step advances it
by at least one position. -/
theorem splitStep_advance (tok : String → Nat) (aid : String) (path : List String)
    (pidx : Nat) (sentences : List String) (ovl i sub : Nat)
    (h : i < sentences.length) :
    i + 1 ≤ (splitStep tok aid path pidx sentences ovl i sub).2 := by
  obtain ⟨d, hd, _, hne⟩ := buildWindow_spec tok (sentences.drop i) [] 0
  have hdrop : sentences.drop i ≠ [] := by
    intro hnil
    rw [List.drop_eq_nil_iff] at hnil
    omega
  have hk : 1 ≤ d.length := hne hdrop
  simp only [splitStep, hd]
  have hclamp : clampOverlap ovl (([] ++ d : List String)).length ≤ d.length - 1 := by
    simp only [List.nil_append, clampOverlap]
    split <;> omega
  split <;> omega

/-- The chunk a split step emits is an _emit_chunk of type split at the
paragraph index, whose text is the space-join of a nonempty window and
whose count is the sum of the window's per-sentence counts. -/
theorem splitStep_chunk (tok : String → Nat) (aid : String) (path : List String)
    (pidx : Nat) (sentences : List String) (ovl i sub : Nat)
    (h : i < sentences.length) :
    ∃ w : List String, w ≠ [] ∧
      (splitStep tok aid path pidx sentences ovl i sub).1 =
        _emit_chunk aid path (String.intercalate " " w) ((w.map tok).sum) "split" pidx (some sub) := by
  obtain ⟨d, hd, _, hne⟩ := buildWindow_spec tok (sentences.drop i) [] 0
  have hdrop : sentences.drop i ≠ [] := by
    intro hnil
    rw [List.drop_eq_nil_iff] at hnil
    omega
  refine ⟨d, fun hnil => by simp [hnil] at hne; omega, ?_⟩
  · simp [splitStep, hd]

/-- Past the end of the sentence list the loop emits nothing, whatever the
budget. -/
theorem splitLoop_past_end (tok : String → Nat) (aid : String) (path : List String)
    (pidx : Nat) (sentences : List String) (ovl fuel i sub : Nat)
    (h : sentences.length ≤ i) :
    splitLoop tok aid path pidx sentences ovl fuel i sub = [] := by
  cases fuel with
  | zero => rfl
  | succ f => simp [splitLoop, Nat.not_lt.mpr h]

/-- The loop result does not depend on the iteration budget once the
budget covers the remaining sentences: this is the termination of the
source's while loop. -/
theorem splitLoop_stable (tok : String → Nat) (aid : String) (path : List String)
    (pidx : Nat) (sentences : List String) (ovl : Nat) :
    ∀ f1 f2 i sub, sentences.length - i ≤ f1 → sentences.length - i ≤ f2 →
      splitLoop tok aid path pidx sentences ovl f1 i sub =
        splitLoop tok aid path pidx sentences ovl f2 i sub := by
  intro f1
  induction f1 with
  | zero =>
    intro f2 i sub h1 h2
    have : sentences.length ≤ i := by omega
    rw [splitLoop_past_end tok aid path pidx sentences ovl 0 i sub this,
        splitLoop_past_end tok aid path pidx sentences ovl f2 i sub this]
  | succ g ih =>
    intro f2 i sub h1 h2
    by_cases hi : i < sentences.length
    · cases f2 with
      | zero => omega
      | succ g2 =>
        simp only [splitLoop, if_pos hi]
        have hadv := splitStep_advance tok aid path pidx sentences ovl i sub hi
        have := ih g2 (splitStep tok aid path pidx sentences ovl i sub).2 (sub + 1)
          (by omega) (by omega)
        rw [this]
    · have hle : sentences.length ≤ i := by omega
      rw [splitLoop_past_end tok aid path pidx sentences ovl (g + 1) i sub hle,
          splitLoop_past_end tok aid path pidx sentences ovl f2 i sub hle]

/-- Each iteration advances the cursor, so the number of windows emitted
is bounded by the number of remaining sentences. -/
theorem splitLoop_length_le (tok : String → Nat) (aid : String) (path : List String)
    (pidx : Nat) (sentences : List String) (ovl : Nat) :
    ∀ fuel i sub, (splitLoop tok aid path pidx sentences ovl fuel i sub).length ≤
      sentences.length - i := by
  intro fuel
  induction fuel with
  | zero =>
    intro i sub
    simp [splitLoop]
  | succ g ih =>
    intro i sub
    by_cases hi : i < sentences.length
    · simp only [splitLoop, if_pos hi, List.length_cons]
      have hadv := splitStep_advance tok aid path pidx sentences ovl i sub hi
      have := ih (splitStep tok aid path pidx sentences ovl i sub).2 (sub + 1)
      omega
    · rw [splitLoop_past_end tok aid path pidx sentences ovl (g + 1) i sub (by omega)]
      simp

/-- Every chunk the loop emits is the chunk of some split step taken
inside the sentence list. -/
theorem splitLoop_mem (tok : String → Nat) (aid : String) (path : List String)
    (pidx : Nat) (sentences : List String) (ovl : Nat) :
    ∀ fuel i sub c, c ∈ splitLoop tok aid path pidx sentences ovl fuel i sub →
      ∃ j k, j < sentences.length ∧
        c = (splitStep tok aid path pidx sentences ovl j k).1 := by
  intro fuel
  induction fuel with
  | zero =>
    intro i sub c hc
    simp [splitLoop] at hc
  | succ g ih =>
    intro i sub c hc
    by_cases hi : i < sentences.length
    · simp only [splitLoop, if_pos hi, List.mem_cons] at hc
      rcases hc with hc | hc
      · exact ⟨i, sub, hi, hc⟩
      · exact ih _ _ c hc
    · rw [splitLoop_past_end tok aid path pidx sentences ovl (g + 1) i sub (by omega)] at hc
      simp at hc

/-- Every chunk of _split_long_paragraph is a split chunk at the given
paragraph index whose text is the space-join of a nonempty sentence window
and whose count is the window's summed per-sentence counts. -/
theorem split_long_mem (tok : String → Nat) (aid : String) (path : List String)
    (text : String) (pidx : Nat) :
    ∀ c ∈ _split_long_paragraph tok aid path text pidx,
      ∃ w sub, w ≠ [] ∧
        c = _emit_chunk aid path (String.intercalate " " w) ((w.map tok).sum) "split" pidx (some sub) := by
  intro c hc
  unfold _split_long_paragraph at hc
  by_cases hemp : (_split_sentences text).isEmpty
  · simp [hemp] at hc
  · simp only [hemp, if_neg, Bool.false_eq_true, not_false_iff, if_false] at hc
    obtain ⟨j, k, hj, hck⟩ :=
      splitLoop_mem tok aid path pidx (_split_sentences text) SENTENCE_OVERLAP
        (_split_sentences text).length 0 0 c hc
    obtain ⟨w, hw, heq⟩ :=
      splitStep_chunk tok aid path pidx (_split_sentences text) SENTENCE_OVERLAP j k hj
    exact ⟨w, k, hw, by rw [hck, heq]⟩

/-! ### Helper lemmas: the paragraph fold of _process_section_content -/

/-- Any invariant preserved by the loop body holds after folding it over
the enumerated paragraph list. -/
theorem foldl_processPara_inv (tok : String → Nat) (aid : String) (path : List String)
    (Inv : Nat → PState → Prop)
    (step : ∀ n st p, Inv n st → Inv (n + 1) (processPara tok aid path st (n, p))) :
    ∀ (ps : List String) (n : Nat) (st : PState), Inv n st →
      Inv (n + ps.length) ((enumFromIdx n ps).foldl (processPara tok aid path) st) := by
  intro ps
  induction ps with
  | nil => intro n st h; simpa [enumFromIdx] using h
  | cons p ps ih =>
    intro n st h
    have h1 := step n st p h
    have h2 := ih (n + 1) (processPara tok aid path st (n, p)) h1
    simp only [enumFromIdx, List.foldl_cons, List.length_cons]
    have : n + (ps.length + 1) = (n + 1) + ps.length := by omega
    rw [this]
    exact h2

/-- The loop body preserves the merged-chunk budget invariant: every
emitted merged chunk and any buffered text stays within MAX_TOKENS. -/
theorem processPara_merged_step (tok : String → Nat) (aid : String) (path : List String) :
    ∀ (n : Nat) (st : PState) (p : String),
      ((∀ c ∈ st.chunks, c.chunk_type = "merged" → c.token_count ≤ MAX_TOKENS) ∧
       (∀ bt bi, st.buffer = some (bt, bi) → tok bt ≤ MAX_TOKENS)) →
      ((∀ c ∈ (processPara tok aid path st (n, p)).chunks,
          c.chunk_type = "merged" → c.token_count ≤ MAX_TOKENS) ∧
       (∀ bt bi, (processPara tok aid path st (n, p)).buffer = some (bt, bi) →
          tok bt ≤ MAX_TOKENS)) := by
  rintro n ⟨chunks, buffer⟩ p ⟨hch, hbuf⟩
  have hminmax : MIN_TOKENS ≤ MAX_TOKENS := by simp [MIN_TOKENS, MAX_TOKENS]
  by_cases h1 : tok p < MIN_TOKENS
  · cases buffer with
    | none =>
      refine ⟨?_, ?_⟩
      · simpa [processPara, h1] using hch
      · intro bt bi hw
        simp [processPara, h1] at hw
        rw [← hw.1]
        omega
    | some b =>
      obtain ⟨bt0, bi0⟩ := b
      by_cases h2 : tok (bt0 ++ "\n\n" ++ p) ≤ MAX_TOKENS
      · refine ⟨?_, ?_⟩
        · simpa [processPara, h1, h2] using hch
        · intro bt bi hw
          simp [processPara, h1, h2] at hw
          rw [← hw.1]
          exact h2
      · refine ⟨?_, ?_⟩
        · intro c hc
          simp [processPara, h1, h2] at hc
          rcases hc with hc | hc
          · exact hch c hc
          · intro _
            rw [hc]
            simp [_emit_chunk]
            exact hbuf bt0 bi0 rfl
        · intro bt bi hw
          simp [processPara, h1, h2] at hw
          rw [← hw.1]
          omega
  · cases buffer with
    | none =>
      by_cases h3 : tok p ≤ MAX_TOKENS
      · refine ⟨?_, ?_⟩
        · intro c hc
          simp [processPara, h1, h3] at hc
          rcases hc with hc | hc
          · exact hch c hc
          · intro hty
            rw [hc] at hty
            simp [_emit_chunk] at hty
        · intro bt bi hw
          simp [processPara, h1, h3] at hw
      · refine ⟨?_, ?_⟩
        · intro c hc
          simp [processPara, h1, h3] at hc
          rcases hc with hc | hc
          · exact hch c hc
          · obtain ⟨w, sub, hw, heq⟩ := split_long_mem tok aid path p n c hc
            intro hty
            rw [heq] at hty
            simp [_emit_chunk] at hty
        · intro bt bi hw
          simp [processPara, h1, h3] at hw
    | some b =>
      obtain ⟨bt0, bi0⟩ := b
      by_cases h3 : tok p ≤ MAX_TOKENS
      · refine ⟨?_, ?_⟩
        · intro c hc
          simp [processPara, h1, h3] at hc
          rcases hc with hc | hc | hc
          · exact hch c hc
          · intro _
            rw [hc]
            simp [_emit_chunk]
            exact hbuf bt0 bi0 rfl
          · intro hty
            rw [hc] at hty
            simp [_emit_chunk] at hty
        · intro bt bi hw
          simp [processPara, h1, h3] at hw
      · refine ⟨?_, ?_⟩
        · intro c hc
          simp [processPara, h1, h3] at hc
          rcases hc with hc | hc | hc
          · exact hch c hc
          · intro _
            rw [hc]
            simp [_emit_chunk]
            exact hbuf bt0 bi0 rfl
          · obtain ⟨w, sub, hw, heq⟩ := split_long_mem tok aid path p n c hc
            intro hty
            rw [heq] at hty
            simp [_emit_chunk] at hty
        · intro bt bi hw
          simp [processPara, h1, h3] at hw

/-- Lists whose elements are all equal are nondecreasing. -/
theorem pairwise_le_of_all_eq (l : List Nat) (n : Nat) (h : ∀ x ∈ l, x = n) :
    List.Pairwise (· ≤ ·) l := by
  induction l with
  | nil => simp
  | cons a l ih =>
    constructor
    · intro b hb
      rw [h a (by simp), h b (by simp [hb])]
    · exact ih (fun x hx => h x (by simp [hx]))

/-- The loop body preserves the token-count contract of every emitted
chunk. -/
theorem processPara_tokenSpec_step (tok : String → Nat) (aid : String) (path : List String) :
    ∀ (n : Nat) (st : PState) (p : String),
      (∀ c ∈ st.chunks, tokenCountSpec tok c) →
      ∀ c ∈ (processPara tok aid path st (n, p)).chunks, tokenCountSpec tok c := by
  rintro n ⟨chunks, buffer⟩ p hch c hc
  have hmerged : ∀ (t : String) (j : Nat),
      tokenCountSpec tok (_emit_chunk aid path t (tok t) "merged" j none) := by
    intro t j
    constructor
    · intro _
      simp [_emit_chunk]
    · intro hs
      simp [_emit_chunk] at hs
  by_cases h1 : tok p < MIN_TOKENS
  · cases buffer with
    | none =>
      simp [processPara, h1] at hc
      exact hch c hc
    | some b =>
      obtain ⟨bt0, bi0⟩ := b
      by_cases h2 : tok (bt0 ++ "\n\n" ++ p) ≤ MAX_TOKENS
      · simp [processPara, h1, h2] at hc
        exact hch c hc
      · simp [processPara, h1, h2] at hc
        rcases hc with hc | hc
        · exact hch c hc
        · rw [hc]
          exact hmerged bt0 bi0
  · have hsplitc : ∀ c ∈ _split_long_paragraph tok aid path p n, tokenCountSpec tok c := by
      intro c hc
      obtain ⟨w, sub, hw, heq⟩ := split_long_mem tok aid path p n c hc
      rw [heq]
      constructor
      · intro hty
        simp [_emit_chunk] at hty
      · intro _
        exact ⟨w, hw, by simp [_emit_chunk], by simp [_emit_chunk]⟩
    have hpara : tokenCountSpec tok (_emit_chunk aid path p (tok p) "paragraph" n none) := by
      constructor
      · intro _
        simp [_emit_chunk]
      · intro hs
        simp [_emit_chunk] at hs
    cases buffer with
    | none =>
      by_cases h3 : tok p ≤ MAX_TOKENS
      · simp [processPara, h1, h3] at hc
        rcases hc with hc | hc
        · exact hch c hc
        · rw [hc]
          exact hpara
      · simp [processPara, h1, h3] at hc
        rcases hc with hc | hc
        · exact hch c hc
        · exact hsplitc c hc
    | some b =>
      obtain ⟨bt0, bi0⟩ := b
      by_cases h3 : tok p ≤ MAX_TOKENS
      · simp [processPara, h1, h3] at hc
        rcases hc with hc | hc | hc
        · exact hch c hc
        · rw [hc]
          exact hmerged bt0 bi0
        · rw [hc]
          exact hpara
      · simp [processPara, h1, h3] at hc
        rcases hc with hc | hc | hc
        · exact hch c hc
        · rw [hc]
          exact hmerged bt0 bi0
        · exact hsplitc c hc

/-- Nondecreasing lists append to a nondecreasing list when every element
of the first is at most every element of the second. -/
theorem pairwise_le_append (l1 l2 : List Nat) (h1 : List.Pairwise (· ≤ ·) l1)
    (h2 : List.Pairwise (· ≤ ·) l2) (h12 : ∀ a ∈ l1, ∀ b ∈ l2, a ≤ b) :
    List.Pairwise (· ≤ ·) (l1 ++ l2) :=
  List.pairwise_append.mpr ⟨h1, h2, h12⟩

/-- The loop body preserves the order invariant: emitted paragraph
indices are nondecreasing, bounded by the buffered first index when a
buffer exists and by the next index otherwise, and the buffered index
never exceeds the next index. -/
theorem processPara_order_step (tok : String → Nat) (aid : String) (path : List String) :
    ∀ (n : Nat) (st : PState) (p : String),
      (List.Pairwise (· ≤ ·) (st.chunks.map Chunk.paragraph_index) ∧
       (∀ bt bi, st.buffer = some (bt, bi) →
         (∀ c ∈ st.chunks, c.paragraph_index ≤ bi) ∧ bi ≤ n) ∧
       (st.buffer = none → ∀ c ∈ st.chunks, c.paragraph_index ≤ n)) →
      (List.Pairwise (· ≤ ·) ((processPara tok aid path st (n, p)).chunks.map Chunk.paragraph_index) ∧
       (∀ bt bi, (processPara tok aid path st (n, p)).buffer = some (bt, bi) →
         (∀ c ∈ (processPara tok aid path st (n, p)).chunks, c.paragraph_index ≤ bi) ∧ bi ≤ n + 1) ∧
       ((processPara tok aid path st (n, p)).buffer = none →
         ∀ c ∈ (processPara tok aid path st (n, p)).chunks, c.paragraph_index ≤ n + 1)) := by
  rintro n ⟨chunks, buffer⟩ p ⟨hpw, hsome, hnone⟩
  have hsplit_idx : ∀ c ∈ _split_long_paragraph tok aid path p n, c.paragraph_index = n := by
    intro c hc
    obtain ⟨w, sub, hw, heq⟩ := split_long_mem tok aid path p n c hc
    rw [heq]
    simp [_emit_chunk]
  by_cases h1 : tok p < MIN_TOKENS
  · cases buffer with
    | none =>
      have hb := hnone rfl
      have hred : processPara tok aid path ⟨chunks, none⟩ (n, p) = ⟨chunks, some (p, n)⟩ := by
        simp [processPara, h1]
      rw [hred]
      refine ⟨hpw, ?_, by intro hw; simp at hw⟩
      intro bt bi hw
      simp at hw
      exact ⟨fun c hc => by rw [← hw.2]; exact hb c hc, by omega⟩
    | some b =>
      obtain ⟨bt0, bi0⟩ := b
      have hb := hsome bt0 bi0 rfl
      by_cases h2 : tok (bt0 ++ "\n\n" ++ p) ≤ MAX_TOKENS
      · have hred : processPara tok aid path ⟨chunks, some (bt0, bi0)⟩ (n, p) =
            ⟨chunks, some (bt0 ++ "\n\n" ++ p, bi0)⟩ := by
          simp [processPara, h1, h2]
        rw [hred]
        refine ⟨hpw, ?_, by intro hw; simp at hw⟩
        intro bt bi hw
        simp at hw
        exact ⟨fun c hc => by rw [← hw.2]; exact hb.1 c hc, by omega⟩
      · have hred : processPara tok aid path ⟨chunks, some (bt0, bi0)⟩ (n, p) =
            ⟨chunks ++ [_emit_chunk aid path bt0 (tok bt0) "merged" bi0 none], some (p, n)⟩ := by
          simp [processPara, h1, h2]
        rw [hred]
        have hallle : ∀ c ∈ chunks ++ [_emit_chunk aid path bt0 (tok bt0) "merged" bi0 none],
            c.paragraph_index ≤ n := by
          intro c hc
          rcases List.mem_append.mp hc with hc | hc
          · exact le_trans (hb.1 c hc) hb.2
          · rw [List.mem_singleton.mp hc]
            simpa [_emit_chunk] using hb.2
        refine ⟨?_, ?_, by intro hw; simp at hw⟩
        · rw [List.map_append]
          refine pairwise_le_append _ _ hpw (by simp) ?_
          intro a ha b hbm
          simp [_emit_chunk] at hbm
          obtain ⟨c, hc, hca⟩ := List.mem_map.mp ha
          rw [← hca, hbm]
          exact hb.1 c hc
        · intro bt bi hw
          simp at hw
          exact ⟨fun c hc => by rw [← hw.2]; exact hallle c hc, by omega⟩
  · cases buffer with
    | none =>
      have hb := hnone rfl
      by_cases h3 : tok p ≤ MAX_TOKENS
      · have hred : processPara tok aid path ⟨chunks, none⟩ (n, p) =
            ⟨chunks ++ [_emit_chunk aid path p (tok p) "paragraph" n none], none⟩ := by
          simp [processPara, h1, h3]
        rw [hred]
        refine ⟨?_, by intro bt bi hw; simp at hw, ?_⟩
        · rw [List.map_append]
          refine pairwise_le_append _ _ hpw (by simp) ?_
          intro a ha b hbm
          simp [_emit_chunk] at hbm
          obtain ⟨c, hc, hca⟩ := List.mem_map.mp ha
          rw [← hca, hbm]
          exact le_trans (hb c hc) (by omega)
        · intro _ c hc
          rcases List.mem_append.mp hc with hc | hc
          · exact le_trans (hb c hc) (by omega)
          · rw [List.mem_singleton.mp hc]
            simp [_emit_chunk]
      · have hred : processPara tok aid path ⟨chunks, none⟩ (n, p) =
            ⟨chunks ++ _split_long_paragraph tok aid path p n, none⟩ := by
          simp [processPara, h1, h3]
        rw [hred]
        refine ⟨?_, by intro bt bi hw; simp at hw, ?_⟩
        · rw [List.map_append]
          refine pairwise_le_append _ _ hpw ?_ ?_
          · refine pairwise_le_of_all_eq _ n ?_
            intro x hx
            obtain ⟨c, hc, hcx⟩ := List.mem_map.mp hx
            rw [← hcx]
            exact hsplit_idx c hc
          · intro a ha b hbm
            obtain ⟨c, hc, hca⟩ := List.mem_map.mp ha
            obtain ⟨c2, hc2, hcb⟩ := List.mem_map.mp hbm
            rw [← hca, ← hcb, hsplit_idx c2 hc2]
            exact le_trans (hb c hc) (by omega)
        · intro _ c hc
          rcases List.mem_append.mp hc with hc | hc
          · exact le_trans (hb c hc) (by omega)
          · rw [hsplit_idx c hc]
            omega
    | some b =>
      obtain ⟨bt0, bi0⟩ := b
      have hb := hsome bt0 bi0 rfl
      have hflushed : ∀ c ∈ chunks ++ [_emit_chunk aid path bt0 (tok bt0) "merged" bi0 none],
          c.paragraph_index ≤ n := by
        intro c hc
        rcases List.mem_append.mp hc with hc | hc
        · exact le_trans (hb.1 c hc) hb.2
        · rw [List.mem_singleton.mp hc]
          simpa [_emit_chunk] using hb.2
      have hpw1 : List.Pairwise (· ≤ ·)
          ((chunks ++ [_emit_chunk aid path bt0 (tok bt0) "merged" bi0 none]).map
            Chunk.paragraph_index) := by
        rw [List.map_append]
        refine pairwise_le_append _ _ hpw (by simp) ?_
        intro a ha b hbm
        simp [_emit_chunk] at hbm
        obtain ⟨c, hc, hca⟩ := List.mem_map.mp ha
        rw [← hca, hbm]
        exact hb.1 c hc
      by_cases h3 : tok p ≤ MAX_TOKENS
      · have hred : processPara tok aid path ⟨chunks, some (bt0, bi0)⟩ (n, p) =
            ⟨(chunks ++ [_emit_chunk aid path bt0 (tok bt0) "merged" bi0 none]) ++
              [_emit_chunk aid path p (tok p) "paragraph" n none], none⟩ := by
          simp [processPara, h1, h3]
        rw [hred]
        refine ⟨?_, by intro bt bi hw; simp at hw, ?_⟩
        · rw [List.map_append]
          refine pairwise_le_append _ _ hpw1 (by simp) ?_
          intro a ha b hbm
          simp [_emit_chunk] at hbm
          obtain ⟨c, hc, hca⟩ := List.mem_map.mp ha
          rw [← hca, hbm]
          exact le_trans (hflushed c hc) (by omega)
        · intro _ c hc
          rcases List.mem_append.mp hc with hc | hc
          · exact le_trans (hflushed c hc) (by omega)
          · rw [List.mem_singleton.mp hc]
            simp [_emit_chunk]
      · have hred : processPara tok aid path ⟨chunks, some (bt0, bi0)⟩ (n, p) =
            ⟨(chunks ++ [_emit_chunk aid path bt0 (tok bt0) "merged" bi0 none]) ++
              _split_long_paragraph tok aid path p n, none⟩ := by
          simp [processPara, h1, h3]
        rw [hred]
        refine ⟨?_, by intro bt bi hw; simp at hw, ?_⟩
        · rw [List.map_append]
          refine pairwise_le_append _ _ hpw1 ?_ ?_
          · refine pairwise_le_of_all_eq _ n ?_
            intro x hx
            obtain ⟨c, hc, hcx⟩ := List.mem_map.mp hx
            rw [← hcx]
            exact hsplit_idx c hc
          · intro a ha b hbm
            obtain ⟨c, hc, hca⟩ := List.mem_map.mp ha
            obtain ⟨c2, hc2, hcb⟩ := List.mem_map.mp hbm
            rw [← hca, ← hcb, hsplit_idx c2 hc2]
            exact le_trans (hflushed c hc) (by omega)
        · intro _ c hc
          rcases List.mem_append.mp hc with hc | hc
          · exact le_trans (hflushed c hc) (by omega)
          · rw [hsplit_idx c hc]
            omega

/-- The loop body emits chunks carrying the section path it was given. -/
theorem processPara_path_step (tok : String → Nat) (aid : String) (path : List String) :
    ∀ (n : Nat) (st : PState) (p : String),
      (∀ c ∈ st.chunks, c.section_path = path) →
      ∀ c ∈ (processPara tok aid path st (n, p)).chunks, c.section_path = path := by
  rintro n ⟨chunks, buffer⟩ p hch c hc
  have hemit : ∀ (t : String) (tk : Nat) (ty : String) (j : Nat) (s : Option Nat),
      (_emit_chunk aid path t tk ty j s).section_path = path := by
    intro t tk ty j s
    simp [_emit_chunk]
  have hsplitp : ∀ c ∈ _split_long_paragraph tok aid path p n, c.section_path = path := by
    intro c hc
    obtain ⟨w, sub, hw, heq⟩ := split_long_mem tok aid path p n c hc
    rw [heq]
    exact hemit _ _ _ _ _
  by_cases h1 : tok p < MIN_TOKENS
  · cases buffer with
    | none =>
      simp [processPara, h1] at hc
      exact hch c hc
    | some b =>
      obtain ⟨bt0, bi0⟩ := b
      by_cases h2 : tok (bt0 ++ "\n\n" ++ p) ≤ MAX_TOKENS
      · simp [processPara, h1, h2] at hc
        exact hch c hc
      · simp [processPara, h1, h2] at hc
        rcases hc with hc | hc
        · exact hch c hc
        · rw [hc]
          exact hemit _ _ _ _ _
  · cases buffer with
    | none =>
      by_cases h3 : tok p ≤ MAX_TOKENS
      · simp [processPara, h1, h3] at hc
        rcases hc with hc | hc
        · exact hch c hc
        · rw [hc]
          exact hemit _ _ _ _ _
      · simp [processPara, h1, h3] at hc
        rcases hc with hc | hc
        · exact hch c hc
        · exact hsplitp c hc
    | some b =>
      obtain ⟨bt0, bi0⟩ := b
      by_cases h3 : tok p ≤ MAX_TOKENS
      · simp [processPara, h1, h3] at hc
        rcases hc with hc | hc | hc
        · exact hch c hc
        · rw [hc]
          exact hemit _ _ _ _ _
        · rw [hc]
          exact hemit _ _ _ _ _
      · simp [processPara, h1, h3] at hc
        rcases hc with hc | hc | hc
        · exact hch c hc
        · rw [hc]
          exact hemit _ _ _ _ _
        · exact hsplitp c hc

/-! ### Helper lemmas: section-level consequences -/

/-- Every merged chunk of a processed section stays within MAX_TOKENS. -/
theorem process_section_merged_le (tok : String → Nat) (aid : String) (sec : Section) :
    ∀ c ∈ _process_section_content tok aid sec,
      c.chunk_type = "merged" → c.token_count ≤ MAX_TOKENS := by
  intro c hc hty
  have hInv := foldl_processPara_inv tok aid sec.path
    (fun _ st => (∀ c ∈ st.chunks, c.chunk_type = "merged" → c.token_count ≤ MAX_TOKENS) ∧
      (∀ bt bi, st.buffer = some (bt, bi) → tok bt ≤ MAX_TOKENS))
    (processPara_merged_step tok aid sec.path) sec.content 0 ⟨[], none⟩
    ⟨by simp, by simp⟩
  revert hc
  simp only [_process_section_content]
  cases hbuf : ((enumFromIdx 0 sec.content).foldl (processPara tok aid sec.path)
      ⟨[], none⟩).buffer with
  | none =>
    intro hc
    exact hInv.1 c hc hty
  | some b =>
    obtain ⟨bt, bi⟩ := b
    intro hc
    rcases List.mem_append.mp hc with hc | hc
    · exact hInv.1 c hc hty
    · rw [List.mem_singleton.mp hc]
      simpa [_emit_chunk] using hInv.2 bt bi hbuf

/-- Every chunk of a processed section satisfies the token-count
contract. -/
theorem process_section_tokenSpec (tok : String → Nat) (aid : String) (sec : Section) :
    ∀ c ∈ _process_section_content tok aid sec, tokenCountSpec tok c := by
  intro c hc
  have hInv := foldl_processPara_inv tok aid sec.path
    (fun _ st => ∀ c ∈ st.chunks, tokenCountSpec tok c)
    (processPara_tokenSpec_step tok aid sec.path) sec.content 0 ⟨[], none⟩
    (by simp)
  revert hc
  simp only [_process_section_content]
  cases hbuf : ((enumFromIdx 0 sec.content).foldl (processPara tok aid sec.path)
      ⟨[], none⟩).buffer with
  | none =>
    intro hc
    exact hInv c hc
  | some b =>
    obtain ⟨bt, bi⟩ := b
    intro hc
    rcases List.mem_append.mp hc with hc | hc
    · exact hInv c hc
    · rw [List.mem_singleton.mp hc]
      constructor
      · intro _
        simp [_emit_chunk]
      · intro hs
        simp [_emit_chunk] at hs

/-- The paragraph indices of a processed section are nondecreasing. -/
theorem process_section_order (tok : String → Nat) (aid : String) (sec : Section) :
    List.Pairwise (· ≤ ·) ((_process_section_content tok aid sec).map Chunk.paragraph_index) := by
  have hInv := foldl_processPara_inv tok aid sec.path
    (fun n st => List.Pairwise (· ≤ ·) (st.chunks.map Chunk.paragraph_index) ∧
      (∀ bt bi, st.buffer = some (bt, bi) →
        (∀ c ∈ st.chunks, c.paragraph_index ≤ bi) ∧ bi ≤ n) ∧
      (st.buffer = none → ∀ c ∈ st.chunks, c.paragraph_index ≤ n))
    (processPara_order_step tok aid sec.path) sec.content 0 ⟨[], none⟩
    ⟨by simp, by simp, by simp⟩
  simp only [_process_section_content]
  cases hbuf : ((enumFromIdx 0 sec.content).foldl (processPara tok aid sec.path)
      ⟨[], none⟩).buffer with
  | none =>
    exact hInv.1
  | some b =>
    obtain ⟨bt, bi⟩ := b
    rw [List.map_append]
    refine pairwise_le_append _ _ hInv.1 (by simp) ?_
    intro a ha b2 hbm
    simp [_emit_chunk] at hbm
    obtain ⟨c, hc, hca⟩ := List.mem_map.mp ha
    rw [← hca, hbm]
    exact (hInv.2.1 bt bi hbuf).1 c hc

/-- Every chunk of a processed section carries that section's path. -/
theorem process_section_path (tok : String → Nat) (aid : String) (sec : Section) :
    ∀ c ∈ _process_section_content tok aid sec, c.section_path = sec.path := by
  intro c hc
  have hInv := foldl_processPara_inv tok aid sec.path
    (fun _ st => ∀ c ∈ st.chunks, c.section_path = sec.path)
    (processPara_path_step tok aid sec.path) sec.content 0 ⟨[], none⟩
    (by simp)
  revert hc
  simp only [_process_section_content]
  cases hbuf : ((enumFromIdx 0 sec.content).foldl (processPara tok aid sec.path)
      ⟨[], none⟩).buffer with
  | none =>
    intro hc
    exact hInv c hc
  | some b =>
    obtain ⟨bt, bi⟩ := b
    intro hc
    rcases List.mem_append.mp hc with hc | hc
    · exact hInv c hc
    · rw [List.mem_singleton.mp hc]
      simp [_emit_chunk]

/-! ### Helper lemmas: the parser on header-free input -/

/-- Folding the line parser over header-free lines never touches the
stack: it only accumulates paragraphs into the current frame, exactly as
the spec-side paragraph extraction does. -/
theorem parse_no_header_fold :
    ∀ (lines : List String) (f : Frame) (S : List Frame) (buf : List String),
      (∀ l ∈ lines, headerMatch (pyStrip l) = none) →
      lines.foldl parseLine ⟨f, S, buf⟩ =
        ⟨{ f with content := f.content ++ (paragraphsAux buf lines).1 }, S,
          (paragraphsAux buf lines).2⟩ := by
  intro lines
  induction lines with
  | nil =>
    intro f S buf _
    simp [paragraphsAux]
  | cons l ls ih =>
    intro f S buf h
    have hl : headerMatch (pyStrip l) = none := h l (by simp)
    have hls : ∀ x ∈ ls, headerMatch (pyStrip x) = none := fun x hx => h x (by simp [hx])
    by_cases ht : pyStrip l = ""
    · have hstep : parseLine ⟨f, S, buf⟩ l =
          ⟨{ f with content := f.content ++ flushOne buf }, S, []⟩ := by
        simp [parseLine, ht, flushPara]
      rw [List.foldl_cons, hstep, ih _ S [] hls]
      simp only [paragraphsAux, ht, if_pos]
      simp [List.append_assoc]
    · have hstep : parseLine ⟨f, S, buf⟩ l = ⟨f, S, buf ++ [pyStrip l]⟩ := by
        simp [parseLine, ht, hl]
      rw [List.foldl_cons, hstep, ih _ S _ hls]
      simp only [paragraphsAux, ht, if_neg]
      simp

/-- A header-free document parses to the bare root section, whose path is
the sentinel list ["Root"] and whose content is the document's paragraph
list; it has no subsections. -/
theorem parse_no_header (text : String)
    (h : ∀ l ∈ pySplitLines text, headerMatch (pyStrip l) = none) :
    _parse_markdown_structure text = Section.mk "Root" 0 ["Root"] (paragraphsOf text) [] := by
  have hfold := parse_no_header_fold (pySplitLines text)
    { title := "Root", level := 0, path := ["Root"], content := [], subs := [] } [] [] h
  show collapseStack
      (flushPara ((pySplitLines text).foldl parseLine
        ⟨{ title := "Root", level := 0, path := ["Root"], content := [], subs := [] }, [], []⟩)).cur
      (flushPara ((pySplitLines text).foldl parseLine
        ⟨{ title := "Root", level := 0, path := ["Root"], content := [], subs := [] }, [], []⟩)).stack
    = Section.mk "Root" 0 ["Root"] (paragraphsOf text) []
  rw [hfold]
  simp [flushPara, collapseStack, closeFrame, paragraphsOf, List.append_assoc]

/-- Recursive processing of a section without subsections is just the
section's own content processing. -/
theorem recursive_leaf (tok : String → Nat) (aid : String) (t : String) (l : Nat)
    (p : List String) (c : List String) :
    _recursive_chunk_process tok aid (Section.mk t l p c []) =
      _process_section_content tok aid (Section.mk t l p c []) := by
  simp [_recursive_chunk_process, recurseSubsections]

/-! ### Helper lemmas: chunk identity -/

/-- Hex rendering doubles the byte count. -/
theorem byteHex_flatten_length : ∀ bs : List Nat, ((bs.map byteHex).flatten).length = 2 * bs.length := by
  intro bs
  induction bs with
  | nil => simp
  | cons b bs ih =>
    simp only [List.map_cons, List.flatten_cons, List.length_append, ih, byteHex]
    simp
    omega

/-- The MD5 hexdigest always has 32 characters. -/
theorem md5HexChars_length (msg : List Nat) : (md5HexChars msg).length = 32 := by
  unfold md5HexChars
  rw [byteHex_flatten_length]
  have h16 : (md5Digest msg).length = 16 := by
    simp [md5Digest, le4]
  rw [h16]

/-- Every chunk id has exactly 16 characters. -/
theorem chunk_id_of_length (aid : String) (path : List String) (pidx : Nat)
    (sub : Option Nat) : (chunk_id_of aid path pidx sub).length = 16 := by
  have hmk : ∀ l : List Char, (String.mk l).length = l.length := fun _ => rfl
  unfold chunk_id_of
  rw [hmk, List.length_take, md5HexChars_length]
  decide

/-- hexDigit always lands in the hex alphabet. -/
theorem hexDigit_mem (n : Nat) : hexAlphabet.contains (hexDigit n) = true := by
  have h : n % 16 < 16 := Nat.mod_lt _ (by norm_num)
  have hb : ∀ m, m < 16 →
      hexAlphabet.contains ("0123456789abcdef".toList.getD m '0') = true := by decide
  unfold hexDigit
  exact hb (n % 16) h

/-- Every character of a chunk id is a lowercase hex digit. -/
theorem chunk_id_chars_hex (aid : String) (path : List String) (pidx : Nat)
    (sub : Option Nat) :
    ((chunk_id_of aid path pidx sub).toList.all (fun ch => hexAlphabet.contains ch)) = true := by
  rw [List.all_eq_true]
  intro ch hch
  have hch' : ch ∈ (md5HexChars (utf8Encode (raw_id aid path pidx sub))).take 16 := hch
  have hch2 : ch ∈ md5HexChars (utf8Encode (raw_id aid path pidx sub)) :=
    List.take_subset 16 _ hch'
  unfold md5HexChars at hch2
  rw [List.mem_flatten] at hch2
  obtain ⟨l', hl', hchl⟩ := hch2
  rw [List.mem_map] at hl'
  obtain ⟨b, _, hbl⟩ := hl'
  rw [← hbl] at hchl
  simp only [byteHex, List.mem_cons, List.mem_singleton] at hchl
  rcases hchl with h | h | h
  · rw [h]
    exact hexDigit_mem _
  · rw [h]
    exact hexDigit_mem _
  · simp at h

/-- The canonical identity string distinguishes an absent subchunk index
from subchunk index zero: the two encodings differ as strings. -/
theorem raw_id_absent_ne_zero (aid : String) (path : List String) (pidx : Nat) :
    raw_id aid path pidx none ≠ raw_id aid path pidx (some 0) := by
  intro h
  have hlen := congrArg String.length h
  simp only [raw_id] at hlen
  simp only [String.length_append] at hlen
  have e1 : ("" : String).length = 0 := rfl
  have e2 : (toString (0 : Nat)).length = 1 := rfl
  rw [e1, e2] at hlen
  omega

/-! ### Claim theorems -/

/-- C1: the chunk_id assigned by _emit_chunk is a pure function of exactly
(article_id, section_path, paragraph_index, subchunk_index) — it ignores
text, token count and chunk type — and equals the first 16 hex characters
of the deterministic MD5 digest of the canonical delimited identity
string, so identical inputs reproduce identical ids; an absent subchunk
index is encoded differently from subchunk index 0. -/
theorem chunk_id_pure_of_tuple :
    ∀ (article_id : String) (section_path : List String) (p_idx : Nat) (sub_idx : Option Nat)
      (text1 text2 : String) (tk1 tk2 : Nat) (ty1 ty2 : String),
      (_emit_chunk article_id section_path text1 tk1 ty1 p_idx sub_idx).chunk_id =
        chunk_id_of article_id section_path p_idx sub_idx ∧
      (_emit_chunk article_id section_path text1 tk1 ty1 p_idx sub_idx).chunk_id =
        (_emit_chunk article_id section_path text2 tk2 ty2 p_idx sub_idx).chunk_id ∧
      chunk_id_of article_id section_path p_idx sub_idx =
        String.mk ((md5HexChars (utf8Encode (raw_id article_id section_path p_idx sub_idx))).take 16) ∧
      (chunk_id_of article_id section_path p_idx sub_idx).length = 16 ∧
      ((chunk_id_of article_id section_path p_idx sub_idx).toList.all
        (fun ch => hexAlphabet.contains ch)) = true ∧
      raw_id article_id section_path p_idx none ≠ raw_id article_id section_path p_idx (some 0) := by
  intro aid path pidx sub t1 t2 k1 k2 y1 y2
  exact ⟨rfl, rfl, rfl, chunk_id_of_length aid path pidx sub,
    chunk_id_chars_hex aid path pidx sub, raw_id_absent_ne_zero aid path pidx⟩

/-- C2: every merged chunk's token count is at most MAX_TOKENS; a merge
candidate is accepted into the buffer only when its token count is at
most MAX_TOKENS, and otherwise the buffer is flushed as a merged chunk
and a new buffer starts with the current paragraph. -/
theorem merged_chunks_within_max :
    ∀ (tok : String → Nat) (aid : String) (sec : Section) (c : Chunk)
      (path : List String) (chunks : List Chunk) (bt : String) (bi i : Nat) (p : String),
      (c ∈ _process_section_content tok aid sec → c.chunk_type = "merged" →
        c.token_count ≤ MAX_TOKENS) ∧
      (tok p < MIN_TOKENS → tok (bt ++ "\n\n" ++ p) ≤ MAX_TOKENS →
        processPara tok aid path ⟨chunks, some (bt, bi)⟩ (i, p) =
          ⟨chunks, some (bt ++ "\n\n" ++ p, bi)⟩) ∧
      (tok p < MIN_TOKENS → ¬ tok (bt ++ "\n\n" ++ p) ≤ MAX_TOKENS →
        processPara tok aid path ⟨chunks, some (bt, bi)⟩ (i, p) =
          ⟨chunks ++ [_emit_chunk aid path bt (tok bt) "merged" bi none], some (p, i)⟩) := by
  intro tok aid sec c path chunks bt bi i p
  refine ⟨fun hc hty => process_section_merged_le tok aid sec c hc hty, ?_, ?_⟩
  · intro h1 h2
    simp [processPara, h1, h2]
  · intro h1 h2
    simp [processPara, h1, h2]

theorem merged_chunks_within_max_witness :
    (((_process_section_content _simple_tokenize "d" secTwoSmall).getD 0 defaultChunk).token_count
      ≤ MAX_TOKENS) ∧
    (processPara _simple_tokenize "d" ["Root"] ⟨[], some ("a", 0)⟩ (1, "b") =
      ⟨[], some ("a" ++ "\n\n" ++ "b", 0)⟩) ∧
    (processPara _simple_tokenize "d" ["Root"] ⟨[], some (b290, 0)⟩ (1, p79) =
      ⟨[] ++ [_emit_chunk "d" ["Root"] b290 (_simple_tokenize b290) "merged" 0 none],
        some (p79, 1)⟩) :=
  ⟨(merged_chunks_within_max _simple_tokenize "d" secTwoSmall
      ((_process_section_content _simple_tokenize "d" secTwoSmall).getD 0 defaultChunk)
      [] [] "" 0 0 "").1 (by decide) (by decide),
   (merged_chunks_within_max _simple_tokenize "d" secTwoSmall defaultChunk
      ["Root"] [] "a" 0 1 "b").2.1 (by decide) (by decide),
   (merged_chunks_within_max _simple_tokenize "d" secTwoSmall defaultChunk
      ["Root"] [] b290 0 1 p79).2.2 (by decide) (by decide)⟩

/-- C3: line 284 of the class body assigns from the name
_process_section_content_fixed, which is bound neither in the class
namespace nor in the module globals nor in builtins; evaluating the class
body therefore raises NameError, so the class object — and with it every
chunker operation — is never created. -/
theorem class_wiring_name_error :
    evalClassWiring = PyEvalResult.nameError "_process_section_content_fixed" ∧
    classBodyResolves "_process_section_content_fixed" = false :=
  ⟨rfl, rfl⟩

/-- C4: for a paragraph whose token count reaches MIN_TOKENS while the
buffer is non-empty, the buffer is flushed first as a merged chunk of
exactly the buffered text (the paragraph is never folded in, whatever the
combined size), and the paragraph is then emitted verbatim as a paragraph
chunk when within MAX_TOKENS, else delegated to the sentence-window
split. -/
theorem min_branch_flush_then_emit :
    ∀ (tok : String → Nat) (aid : String) (path : List String) (chunks : List Chunk)
      (bt : String) (bi i : Nat) (p : String),
      MIN_TOKENS ≤ tok p →
      (processPara tok aid path ⟨chunks, some (bt, bi)⟩ (i, p)).chunks =
        chunks ++ [_emit_chunk aid path bt (tok bt) "merged" bi none] ++
          (if tok p ≤ MAX_TOKENS then [_emit_chunk aid path p (tok p) "paragraph" i none]
           else _split_long_paragraph tok aid path p i) ∧
      (processPara tok aid path ⟨chunks, some (bt, bi)⟩ (i, p)).buffer = none := by
  intro tok aid path chunks bt bi i p h
  have h1 : ¬ tok p < MIN_TOKENS := by omega
  by_cases h3 : tok p ≤ MAX_TOKENS
  · exact ⟨by simp [processPara, h1, h3], by simp [processPara, h1, h3]⟩
  · exact ⟨by simp [processPara, h1, h3], by simp [processPara, h1, h3]⟩

theorem min_branch_flush_then_emit_witness :
    (processPara _simple_tokenize "d" ["Root"] ⟨[], some ("buf", 0)⟩ (3, p80)).chunks =
      [] ++ [_emit_chunk "d" ["Root"] "buf" (_simple_tokenize "buf") "merged" 0 none] ++
        (if _simple_tokenize p80 ≤ MAX_TOKENS
         then [_emit_chunk "d" ["Root"] p80 (_simple_tokenize p80) "paragraph" 3 none]
         else _split_long_paragraph _simple_tokenize "d" ["Root"] p80 3) ∧
    (processPara _simple_tokenize "d" ["Root"] ⟨[], some ("buf", 0)⟩ (3, p80)).buffer = none :=
  min_branch_flush_then_emit _simple_tokenize "d" ["Root"] [] "buf" 0 3 p80 (by decide)

/-- C5: the sentence-window split terminates: the loop's result is
independent of the iteration budget once the budget covers the remaining
sentences; at most one window per remaining sentence is emitted; zero
windows are produced once the cursor reaches the end; every window
consumes at least one sentence; and the backtrack overlap is clamped to
the window size minus one (as a Nat it also never goes negative). The
cursor is moved back only when sentences remain, by definition of
splitStep. -/
theorem split_loop_terminates :
    ∀ (tok : String → Nat) (aid : String) (path : List String) (pidx : Nat)
      (sentences : List String) (ovl i sub f1 f2 : Nat),
      (sentences.length - i ≤ f1 → sentences.length - i ≤ f2 →
        splitLoop tok aid path pidx sentences ovl f1 i sub =
          splitLoop tok aid path pidx sentences ovl f2 i sub) ∧
      ((splitLoop tok aid path pidx sentences ovl f1 i sub).length ≤ sentences.length - i) ∧
      (sentences.length ≤ i → splitLoop tok aid path pidx sentences ovl f1 i sub = []) ∧
      (∀ rest : List String, rest ≠ [] → 1 ≤ (buildWindow tok rest [] 0).2.2) ∧
      (∀ w, 1 ≤ w → clampOverlap ovl w ≤ w - 1) := by
  intro tok aid path pidx sentences ovl i sub f1 f2
  refine ⟨splitLoop_stable tok aid path pidx sentences ovl f1 f2 i sub,
    splitLoop_length_le tok aid path pidx sentences ovl f1 i sub,
    splitLoop_past_end tok aid path pidx sentences ovl f1 i sub,
    ?_, ?_⟩
  · intro rest hrest
    obtain ⟨d, hd, _, hne⟩ := buildWindow_spec tok rest [] 0
    simpa [hd] using hne hrest
  · intro w hw
    unfold clampOverlap
    split <;> omega

theorem split_loop_terminates_witness :
    (splitLoop _simple_tokenize "d" ["Root"] 0 ["a.", "b."] 1 2 0 0 =
      splitLoop _simple_tokenize "d" ["Root"] 0 ["a.", "b."] 1 3 0 0) ∧
    (splitLoop _simple_tokenize "d" ["Root"] 0 ["a.", "b."] 1 5 2 0 = []) ∧
    (1 ≤ (buildWindow _simple_tokenize ["x."] [] 0).2.2) ∧
    (clampOverlap 1 1 ≤ 1 - 1) :=
  ⟨(split_loop_terminates _simple_tokenize "d" ["Root"] 0 ["a.", "b."] 1 0 0 2 3).1
      (by decide) (by decide),
   (split_loop_terminates _simple_tokenize "d" ["Root"] 0 ["a.", "b."] 1 2 0 5 5).2.2.1
      (by decide),
   (split_loop_terminates _simple_tokenize "d" ["Root"] 0 ["a.", "b."] 1 0 0 5 5).2.2.2.1
      ["x."] (by decide),
   (split_loop_terminates _simple_tokenize "d" ["Root"] 0 ["a.", "b."] 1 0 0 5 5).2.2.2.2
      1 (by decide)⟩

/-- C6: chunking is deterministic: two chunk_article calls with equal
article ids, equal raw texts and the same tokenizer return equal chunk
sequences, chunk_id values included — the embedding is a pure function of
its inputs. -/
theorem chunk_article_deterministic :
    ∀ (tok : String → Nat) (aid1 text1 aid2 text2 : String),
      aid1 = aid2 → text1 = text2 →
      chunk_article tok aid1 text1 = chunk_article tok aid2 text2 := by
  intro tok a1 t1 a2 t2 h1 h2
  rw [h1, h2]

theorem chunk_article_deterministic_witness :
    chunk_article _simple_tokenize "doc" "a b" = chunk_article _simple_tokenize "doc" "a b" :=
  chunk_article_deterministic _simple_tokenize "doc" "a b" "doc" "a b" rfl rfl

/-- C7 counterexample: the chunk emitted for the header-free document
"hello world" carries section_path ["Root"], not the empty path the claim
asserts: the parser gives the root section path ["Root"], not []. -/
theorem root_path_not_empty_counterexample :
    ((chunk_article _simple_tokenize "d" "hello world").map Chunk.section_path = [["Root"]]) ∧
    (["Root"] ≠ ([] : List String)) :=
  ⟨rfl, by decide⟩

/-- C7 amended: a header-free document parses to a single root section
with no subsections whose content is the document's paragraph list; the
root's path is the sentinel ["Root"] (not empty), and every emitted chunk
carries section_path ["Root"]. -/
theorem no_header_single_root_amended :
    ∀ text : String, (∀ l ∈ pySplitLines text, headerMatch (pyStrip l) = none) →
      _parse_markdown_structure text = Section.mk "Root" 0 ["Root"] (paragraphsOf text) [] ∧
      ∀ (tok : String → Nat) (aid : String) (c : Chunk),
        c ∈ chunk_article tok aid text → c.section_path = ["Root"] := by
  intro text h
  have hp := parse_no_header text h
  refine ⟨hp, ?_⟩
  intro tok aid c hc
  unfold chunk_article at hc
  rw [hp, recursive_leaf] at hc
  have := process_section_path tok aid (Section.mk "Root" 0 ["Root"] (paragraphsOf text) []) c hc
  simpa [Section.path] using this

theorem no_header_single_root_witness :
    (_parse_markdown_structure "hello world" =
      Section.mk "Root" 0 ["Root"] (paragraphsOf "hello world") []) ∧
    ((chunk_article _simple_tokenize "d" "hello world").getD 0 defaultChunk).section_path
      = ["Root"] :=
  ⟨(no_header_single_root_amended "hello world" (by decide)).1,
   (no_header_single_root_amended "hello world" (by decide)).2 _simple_tokenize "d"
     ((chunk_article _simple_tokenize "d" "hello world").getD 0 defaultChunk) (by decide)⟩

/-- C8 counterexample: under the configuration (MIN=400, TARGET=220,
MAX=300, OVERLAP=1), which violates MIN < TARGET, construction still
succeeds — the constructor performs no validation at all. -/
theorem init_accepts_invalid_config_counterexample :
    ((UniversalChunker_init 400 220 300 1 none).isOk = true) ∧
    ¬ validConfig 400 220 300 1 :=
  ⟨rfl, by unfold validConfig; decide⟩

/-- C8 amended: the constructor takes only the tokenizer, reads none of
the policy constants, and succeeds for every configuration, valid or
invalid; nothing is validated and nothing is clamped. The module's fixed
policy constants themselves do satisfy MIN < TARGET ≤ MAX and
OVERLAP ≥ 0, so no invalid configuration ever arises in the program. -/
theorem init_never_validates_amended :
    ∀ (mi ta mx : Nat) (ov : Int) (t : Option (String → Nat)),
      (UniversalChunker_init mi ta mx ov t).isOk = true ∧
      validConfig MIN_TOKENS TARGET_TOKENS MAX_TOKENS (SENTENCE_OVERLAP : Int) := by
  intro mi ta mx ov t
  exact ⟨rfl, by unfold validConfig; decide⟩

/-- C9 counterexample: with the character-count tokenizer, the single
split chunk produced for secC9 carries token_count 352, while the
tokenizer applied to the chunk's text gives 353 — the claimed field
equation fails for split chunks. -/
theorem split_token_count_counterexample :
    ((_process_section_content charTok "d" secC9).map
      (fun c => (c.chunk_type, c.token_count, charTok c.text))) = [("split", 352, 353)] ∧
    (352 : Nat) ≠ 353 :=
  ⟨rfl, by decide⟩

/-- C9 amended: paragraph and merged chunks carry exactly the tokenizer
count of their text; split chunks instead carry the sum of the
per-sentence tokenizer counts over their window, whose space-join is the
chunk's text — a sum that need not equal the tokenizer applied to the
joined text. -/
theorem token_count_contract_amended :
    ∀ (tok : String → Nat) (aid : String) (sec : Section) (c : Chunk),
      c ∈ _process_section_content tok aid sec → tokenCountSpec tok c :=
  fun tok aid sec => process_section_tokenSpec tok aid sec

theorem token_count_contract_witness :
    (((_process_section_content _simple_tokenize "d" secTwoSmall).getD 0 defaultChunk).token_count
      = _simple_tokenize
          ((_process_section_content _simple_tokenize "d" secTwoSmall).getD 0 defaultChunk).text) ∧
    (∃ w : List String, w ≠ [] ∧
      ((_process_section_content charTok "d" secC9).getD 0 defaultChunk).text =
        String.intercalate " " w ∧
      ((_process_section_content charTok "d" secC9).getD 0 defaultChunk).token_count =
        (w.map charTok).sum) :=
  ⟨(token_count_contract_amended _simple_tokenize "d" secTwoSmall
      ((_process_section_content _simple_tokenize "d" secTwoSmall).getD 0 defaultChunk)
      (by decide)).1 (Or.inr (by decide)),
   (token_count_contract_amended charTok "d" secC9
      ((_process_section_content charTok "d" secC9).getD 0 defaultChunk)
      (by decide)).2 (by decide)⟩

/-- C10: chunks preserve paragraph order within a section: the
paragraph_index values of the emitted sequence are nondecreasing (a
merged chunk carries the index of the first paragraph folded in and is
flushed before any chunk of a later paragraph). -/
theorem paragraph_index_nondecreasing :
    ∀ (tok : String → Nat) (aid : String) (sec : Section),
      List.Pairwise (· ≤ ·) ((_process_section_content tok aid sec).map Chunk.paragraph_index) :=
  process_section_order

theorem chunk_id_pure_of_tuple_witness :
    (_emit_chunk "d" ["Root"] "x" 1 "paragraph" 0 none).chunk_id =
      chunk_id_of "d" ["Root"] 0 none ∧
    (chunk_id_of "d" ["Root"] 0 none).length = 16 ∧
    raw_id "d" ["Root"] 0 none ≠ raw_id "d" ["Root"] 0 (some 0) :=
  ⟨(chunk_id_pure_of_tuple "d" ["Root"] 0 none "x" "y" 1 2 "paragraph" "merged").1,
   (chunk_id_pure_of_tuple "d" ["Root"] 0 none "x" "y" 1 2 "paragraph" "merged").2.2.2.1,
   (chunk_id_pure_of_tuple "d" ["Root"] 0 none "x" "y" 1 2 "paragraph" "merged").2.2.2.2.2⟩
